import Mathlib

/-!
Zenfulcode/vidconv: file classification and FFmpeg binary resolution.

A shallow embedding of `internal/models/file.go`, `internal/config/config.go`,
`pkg/ffmpeg/embed_common.go`, `pkg/ffmpeg/embed_stub.go` and `app_avfoundation.go`,
followed by the theorems proved about them.
-/

set_option autoImplicit false

namespace Vidconv

/-! ## internal/models/file.go -/

/-- Go `type FileType string`. -/
abbrev FileType := String

def FileTypeVideo : FileType := "video"
def FileTypeImage : FileType := "image"
def FileTypeUnknown : FileType := "unknown"

/-- A Go `map[string]bool` literal, kept as its list of key/value entries. -/
abbrev GoMap := List (String × Bool)

/-- Go map indexing `m[k]`: the stored value, or the zero value `false` when `k` is no key. -/
def GoMap.index : GoMap → String → Bool
  | [], _ => false
  | (k, v) :: rest, x => if x = k then v else GoMap.index rest x

/-- The keys of a Go map literal. -/
def GoMap.keys (m : GoMap) : List String := m.map Prod.fst

def VideoFormats : GoMap :=
  [(".mp4", true), (".webm", true), (".avi", true), (".mkv", true), (".mov", true),
   (".wmv", true), (".flv", true), (".m4v", true), (".mpeg", true), (".mpg", true),
   (".3gp", true), (".mts", true), (".m2ts", true), (".ts", true), (".vob", true),
   (".ogv", true), (".rm", true), (".rmvb", true), (".asf", true), (".divx", true),
   (".f4v", true)]

def ImageFormats : GoMap :=
  [(".png", true), (".jpg", true), (".jpeg", true), (".webp", true), (".gif", true),
   (".bmp", true), (".tiff", true), (".tif", true), (".ico", true), (".svg", true)]

def VideoOutputFormats : List String := ["mp4", "webm", "avi", "mkv", "mov", "gif"]

def ImageOutputFormats : List String := ["png", "jpg", "jpeg", "webp", "gif", "bmp", "tiff"]

/-- `GetFileType` of file.go: video lookup first, then image lookup, else unknown. -/
def GetFileType (extension : String) : FileType :=
  if VideoFormats.index extension then FileTypeVideo
  else if ImageFormats.index extension then FileTypeImage
  else FileTypeUnknown

/-- `GetOutputFormats` of file.go. -/
def GetOutputFormats (fileType : FileType) : List String :=
  if fileType = FileTypeVideo then VideoOutputFormats
  else if fileType = FileTypeImage then ImageOutputFormats
  else []

/-! ## internal/config/config.go -/

/-- The `switch runtime.GOOS` of `findFFmpeg`: the ordered candidate list. `getenv` stands
for `os.Getenv` and `join` for `filepath.Join`, both supplied by the platform. -/
def ffmpegCandidates (goos : String) (getenv : String → String)
    (join : List String → String) : List String :=
  if goos = "windows" then
    ["ffmpeg.exe",
     join [getenv "ProgramFiles", "ffmpeg", "bin", "ffmpeg.exe"],
     join [getenv "ProgramFiles(x86)", "ffmpeg", "bin", "ffmpeg.exe"]]
  else if goos = "darwin" then
    ["ffmpeg", "/usr/local/bin/ffmpeg", "/opt/homebrew/bin/ffmpeg"]
  else
    ["ffmpeg", "/usr/bin/ffmpeg", "/usr/local/bin/ffmpeg"]

/-- The `for _, path := range candidates` loop of `findFFmpeg` together with the final
`return "ffmpeg"`; `statOk p` says that `os.Stat(p)` returned a nil error. -/
def findFFmpegLoop (statOk : String → Bool) : List String → String
  | [] => "ffmpeg"
  | path :: rest => if statOk path then path else findFFmpegLoop statOk rest

/-- `findFFmpeg` of config.go. -/
def findFFmpeg (goos : String) (getenv : String → String) (join : List String → String)
    (statOk : String → Bool) : String :=
  findFFmpegLoop statOk (ffmpegCandidates goos getenv join)

/-- A plain stand-in for `filepath.Join` used at concrete inputs: the non-empty elements
separated by a slash. -/
def joinSlash (elems : List String) : String :=
  "/".intercalate (elems.filter (fun e => e ≠ ""))

/-! ## The platform seen by pkg/ffmpeg: embedded files and the file system -/

/-- A cleaned path, split into its components; `filepath.Join p c` for a single component
`c` is `p ++ [c]`, and the empty list is the empty path. -/
abbrev Path := List String

/-- A Go `error`: `none` is `nil`, `some msg` carries the message. -/
abbrev GoError := Option String

/-- One file of an `embed.FS`: its bytes, and whether `Stat` on the opened file succeeds. -/
structure EmbeddedFile where
  data : List Nat
  statOk : Bool

/-- An `embed.FS`: `Open` of a name gives the file or fails. -/
abbrev EmbedFS := String → Option EmbeddedFile

/-- What one `embed_<os>_<arch>.go` file fixes for a build, with `runtime.GOOS/GOARCH`. -/
structure Build where
  GOOS : String
  GOARCH : String
  embeddedBinaryPath : String
  embeddedBinaryName : String
  embeddedBinary : EmbedFS

/-- Build of embed_linux_amd64.go. -/
def linuxAmd64 (embedded : EmbedFS) : Build :=
  ⟨"linux", "amd64", "binaries/linux_amd64/ffmpeg", "ffmpeg", embedded⟩

/-- Build of embed_darwin_amd64.go. -/
def darwinAmd64 (embedded : EmbedFS) : Build :=
  ⟨"darwin", "amd64", "binaries/darwin_amd64/ffmpeg", "ffmpeg", embedded⟩

/-- Build of embed_darwin_arm64.go. -/
def darwinArm64 (embedded : EmbedFS) : Build :=
  ⟨"darwin", "arm64", "binaries/darwin_arm64/ffmpeg", "ffmpeg", embedded⟩

/-- Build of embed_windows_amd64.go. -/
def windowsAmd64 (embedded : EmbedFS) : Build :=
  ⟨"windows", "amd64", "binaries/windows_amd64/ffmpeg.exe", "ffmpeg.exe", embedded⟩

/-- A node of the file system. -/
inductive Node where
  | file (data : List Nat)
  | dir
  deriving DecidableEq, Repr

/-- The file system: what is stored at each path. -/
abbrev FS := Path → Option Node

/-- `fs` with node `n` stored at `p`. -/
def FS.set (fs : FS) (p : Path) (n : Node) : FS :=
  fun q => if q = p then some n else fs q

/-- Reasons outside the file tree for which a system call fails (permissions, disk),
and the size `Stat` reports for a directory. -/
structure Env where
  statDenied : Path → Bool
  mkdirDenied : Path → Bool
  openDenied : Path → Bool
  copyFailAt : Option Nat
  dirSize : Nat

/-- Outcome of `os.Stat`, as `needsExtraction` tells them apart. -/
inductive StatResult where
  | ok (size : Nat)
  | notExist
  | otherErr
  deriving DecidableEq, Repr

/-- Model of `os.Stat`. -/
def osStat (env : Env) (fs : FS) (p : Path) : StatResult :=
  if env.statDenied p then StatResult.otherErr
  else match fs p with
    | none => StatResult.notExist
    | some (Node.file d) => StatResult.ok d.length
    | some Node.dir => StatResult.ok env.dirSize

/-- Model of `os.MkdirAll` on the reversed component list: a directory is left alone, a
file is an error, a missing path gets its parent made first and is then created. -/
def mkdirAllRev (env : Env) (fs : FS) : List String → FS × GoError
  | [] => (fs, none)
  | c :: parentRev =>
    match fs (c :: parentRev).reverse with
    | some Node.dir => (fs, none)
    | some (Node.file _) => (fs, some "not a directory")
    | none =>
      match mkdirAllRev env fs parentRev with
      | (fs1, some e) => (fs1, some e)
      | (fs1, none) =>
        if env.mkdirDenied (c :: parentRev).reverse then (fs1, some "permission denied")
        else (fs1.set (c :: parentRev).reverse Node.dir, none)

/-- Model of `os.MkdirAll(path, 0755)`. -/
def osMkdirAll (env : Env) (fs : FS) (path : Path) : FS × GoError :=
  mkdirAllRev env fs path.reverse

/-- Model of `os.OpenFile(path, O_CREATE|O_WRONLY|O_TRUNC, 0755)`: on success the file
exists and is empty. -/
def osOpenFileTrunc (env : Env) (fs : FS) (path : Path) : Except String FS :=
  if env.openDenied path then Except.error "permission denied"
  else if path.dropLast ≠ [] ∧ fs path.dropLast ≠ some Node.dir then
    Except.error "no such file or directory"
  else match fs path with
    | some Node.dir => Except.error "is a directory"
    | _ => Except.ok (fs.set path (Node.file []))

/-- Calls recorded for the theorems (ghost state; the Go code keeps no such log). -/
inductive Event where
  | extractFFmpeg (appDataDir : Path)
  | extractBinary (destPath : Path)
  deriving DecidableEq, Repr

/-- The mutable world: the file system and the log of calls. -/
structure OS where
  fs : FS
  trace : List Event

/-! ## pkg/ffmpeg/embed_common.go (build tag embed_ffmpeg) -/

/-- `needsExtraction` of embed_common.go. -/
def needsExtraction (b : Build) (env : Env) (fs : FS) (destPath : Path) : Bool :=
  match osStat env fs destPath with
  | StatResult.notExist => true
  | StatResult.otherErr => true
  | StatResult.ok destSize =>
    match b.embeddedBinary b.embeddedBinaryPath with
    | none => true
    | some embeddedFile =>
      if embeddedFile.statOk then decide (destSize ≠ embeddedFile.data.length)
      else true

/-- `extractBinary` of embed_common.go; `io.Copy` writes the whole payload, or stops with
an error after `env.copyFailAt` bytes. -/
def extractBinary (b : Build) (env : Env) (os : OS) (destPath : Path) : GoError × OS :=
  let os0 : OS := { os with trace := os.trace ++ [Event.extractBinary destPath] }
  match b.embeddedBinary b.embeddedBinaryPath with
  | none => (some "failed to open embedded binary: file does not exist", os0)
  | some embeddedFile =>
    match osOpenFileTrunc env os0.fs destPath with
    | Except.error e => (some ("failed to create destination file: " ++ e), os0)
    | Except.ok fs1 =>
      match env.copyFailAt with
      | some k =>
        (some "failed to extract binary: write error",
          { os0 with fs := fs1.set destPath (Node.file (embeddedFile.data.take k)) })
      | none => (none, { os0 with fs := fs1.set destPath (Node.file embeddedFile.data) })

/-- `extractFFmpeg` of embed_common.go. -/
def extractFFmpeg (b : Build) (env : Env) (os : OS) (appDataDir : Path) :
    (Path × GoError) × OS :=
  let os0 : OS := { os with trace := os.trace ++ [Event.extractFFmpeg appDataDir] }
  match b.embeddedBinary b.embeddedBinaryPath with
  | none =>
    (([], some ("embedded FFmpeg binary not found for " ++ b.GOOS ++ "/" ++ b.GOARCH ++
        ": file does not exist")), os0)
  | some _ =>
    let binDir := appDataDir ++ ["bin"]
    match osMkdirAll env os0.fs binDir with
    | (fs1, some e) => (([], some ("failed to create bin directory: " ++ e)), { os0 with fs := fs1 })
    | (fs1, none) =>
      let destPath := binDir ++ [b.embeddedBinaryName]
      if needsExtraction b env fs1 destPath then
        match extractBinary b env { os0 with fs := fs1 } destPath with
        | (some e, os2) => (([], some e), os2)
        | (none, os2) => ((destPath, none), os2)
      else ((destPath, none), { os0 with fs := fs1 })

/-- The package variables `extractedPath`, `extractOnce`, `extractErr`, with the world. -/
structure Proc where
  onceDone : Bool
  extractedPath : Path
  extractErr : GoError
  os : OS

/-- A process at start: the once-flag unset, the variables at their zero values. -/
def Proc.start (os : OS) : Proc := ⟨false, [], none, os⟩

/-- `GetEmbeddedFFmpegPath` of embed_common.go; `extractOnce.Do` runs its function only
while the flag is unset and sets it. -/
def GetEmbeddedFFmpegPath (b : Build) (env : Env) (s : Proc) (appDataDir : Path) :
    (Path × GoError) × Proc :=
  let s1 : Proc :=
    if s.onceDone then s
    else
      let r := extractFFmpeg b env s.os appDataDir
      { onceDone := true, extractedPath := r.1.1, extractErr := r.1.2, os := r.2 }
  ((s1.extractedPath, s1.extractErr), s1)

/-- A sequence of calls to `GetEmbeddedFFmpegPath` in one process: the results in call
order, and the final state. -/
def runCalls (b : Build) (env : Env) : Proc → List Path → List (Path × GoError) × Proc
  | s, [] => ([], s)
  | s, d :: rest =>
    let r := GetEmbeddedFFmpegPath b env s d
    let rs := runCalls b env r.2 rest
    (r.1 :: rs.1, rs.2)

/-- The executions of `extractFFmpeg` in a log. -/
def extractFFmpegCalls (trace : List Event) : List Path :=
  trace.filterMap fun e =>
    match e with
    | Event.extractFFmpeg d => some d
    | Event.extractBinary _ => none

/-- The executions of `extractBinary` in a log. -/
def extractBinaryCalls (trace : List Event) : List Path :=
  trace.filterMap fun e =>
    match e with
    | Event.extractFFmpeg _ => none
    | Event.extractBinary d => some d

/-- `HasEmbeddedFFmpeg` of embed_common.go. -/
def HasEmbeddedFFmpeg (b : Build) : Bool :=
  match b.embeddedBinary b.embeddedBinaryPath with
  | none => false
  | some file => if file.statOk then decide (file.data.length > 1024 * 1024) else false

/-- `GetSupportedPlatforms` of embed_common.go. -/
def GetSupportedPlatforms (b : Build) : List String := [b.GOOS ++ "_" ++ b.GOARCH]

/-! ## pkg/ffmpeg/embed_stub.go (build tag !embed_ffmpeg) -/

namespace Stub

/-- `GetEmbeddedFFmpegPath` of embed_stub.go. -/
def GetEmbeddedFFmpegPath (_appDataDir : String) : String × GoError := ("", none)

/-- `HasEmbeddedFFmpeg` of embed_stub.go. -/
def HasEmbeddedFFmpeg : Bool := false

/-- `GetSupportedPlatforms` of embed_stub.go. -/
def GetSupportedPlatforms : List String := []

end Stub

/-! ## app_avfoundation.go (build tags darwin && appstore) -/

/-- The host a build runs on; a Go program can ask it for its macOS version. -/
structure Host where
  macOSVersion : String

/-- `(*App).isFFmpegAvailable` of app_avfoundation.go; the type `App` is declared elsewhere. -/
def isFFmpegAvailable {App : Type} (_a : App) : Bool := true

/-- `(*App).getConverterBackend` of app_avfoundation.go. -/
def getConverterBackend {App : Type} (_a : App) : String := "avfoundation"

/-- `(*App).getConverterVersion` of app_avfoundation.go, run on `host`. -/
def getConverterVersion {App : Type} (_host : Host) (_a : App) : String × GoError :=
  ("AVFoundation (macOS native)", none)

/-! ## Concrete inputs used to evaluate the definitions -/

/-- An environment in which no system call is refused and every copy completes. -/
def envAllowAll : Env :=
  { statDenied := fun _ => false, mkdirDenied := fun _ => false, openDenied := fun _ => false,
    copyFailAt := none, dirSize := 4096 }

/-- An `embed.FS` holding one three-byte payload under every name. -/
def embedThreeBytes : EmbedFS := fun _ => some ⟨[1, 2, 3], true⟩

/-- A file system with no entries. -/
def fsEmpty : FS := fun _ => none

/-- A file system in which `app/bin/ffmpeg` exists with three bytes that differ from the
payload of `embedThreeBytes`. -/
def fsExtracted : FS := fun q =>
  if q = ["app", "bin", "ffmpeg"] then some (Node.file [7, 8, 9])
  else if q = ["app", "bin"] then some Node.dir
  else if q = ["app"] then some Node.dir
  else none

/-- An `embed.FS` holding a payload of `n` zero bytes under every name. -/
def embedOfSize (n : Nat) : EmbedFS := fun _ => some ⟨List.replicate n 0, true⟩

/-! ## Lemmas on Go maps -/

/-- When every stored value is `true`, indexing tests key membership. -/
theorem GoMap.index_eq_true_iff (m : GoMap) (hall : ∀ e ∈ m, e.2 = true) (x : String) :
    m.index x = true ↔ x ∈ m.keys := by
  induction m with
  | nil => simp [GoMap.index, GoMap.keys]
  | cons e rest ih =>
    obtain ⟨k, v⟩ := e
    have hv : v = true := hall (k, v) (List.mem_cons_self _ _)
    have hrest : ∀ e ∈ rest, e.2 = true := fun e he => hall e (List.mem_cons_of_mem _ he)
    have ih2 := ih hrest
    by_cases hx : x = k
    · simp [GoMap.index, GoMap.keys, hx, hv]
    · simp only [GoMap.index, if_neg hx, ih2]
      simp [GoMap.keys, hx]

theorem VideoFormats_all_true : ∀ e ∈ VideoFormats, e.2 = true := by
  intro e he
  simp [VideoFormats] at he
  rcases he with h | h | h | h | h | h | h | h | h | h | h | h | h | h | h | h | h | h | h | h | h <;>
    simp [h]

theorem ImageFormats_all_true : ∀ e ∈ ImageFormats, e.2 = true := by
  intro e he
  simp [ImageFormats] at he
  rcases he with h | h | h | h | h | h | h | h | h | h <;> simp [h]

theorem video_image_keys_disjoint (x : String) :
    ¬ (x ∈ VideoFormats.keys ∧ x ∈ ImageFormats.keys) := by
  rintro ⟨hv, hi⟩
  simp [GoMap.keys, VideoFormats] at hv
  simp [GoMap.keys, ImageFormats] at hi
  rcases hv with h | h | h | h | h | h | h | h | h | h | h | h | h | h | h | h | h | h | h | h | h <;>
    (subst h; revert hi; decide)

/-! ## Lemmas on the file-system model -/

theorem FS.set_same (fs : FS) (p : Path) (n : Node) : fs.set p n p = some n := by
  simp [FS.set]

theorem FS.set_other (fs : FS) (p q : Path) (n : Node) (h : q ≠ p) : fs.set p n q = fs q := by
  simp [FS.set, h]

theorem mkdirAllRev_dir (env : Env) (fs : FS) (c : String) (pr : List String)
    (h : fs (c :: pr).reverse = some Node.dir) : mkdirAllRev env fs (c :: pr) = (fs, none) := by
  simp only [mkdirAllRev, h]

theorem mkdirAllRev_file (env : Env) (fs : FS) (c : String) (pr : List String) (d : List Nat)
    (h : fs (c :: pr).reverse = some (Node.file d)) :
    mkdirAllRev env fs (c :: pr) = (fs, some "not a directory") := by
  simp only [mkdirAllRev, h]

theorem mkdirAllRev_parentErr (env : Env) (fs fs1 : FS) (c : String) (pr : List String)
    (e : String) (h : fs (c :: pr).reverse = none)
    (hrec : mkdirAllRev env fs pr = (fs1, some e)) :
    mkdirAllRev env fs (c :: pr) = (fs1, some e) := by
  simp only [mkdirAllRev, h, hrec]

theorem mkdirAllRev_denied (env : Env) (fs fs1 : FS) (c : String) (pr : List String)
    (h : fs (c :: pr).reverse = none) (hrec : mkdirAllRev env fs pr = (fs1, none))
    (hden : env.mkdirDenied (c :: pr).reverse = true) :
    mkdirAllRev env fs (c :: pr) = (fs1, some "permission denied") := by
  simp only [mkdirAllRev, h, hrec, hden, if_true]

theorem mkdirAllRev_created (env : Env) (fs fs1 : FS) (c : String) (pr : List String)
    (h : fs (c :: pr).reverse = none) (hrec : mkdirAllRev env fs pr = (fs1, none))
    (hden : ¬ env.mkdirDenied (c :: pr).reverse = true) :
    mkdirAllRev env fs (c :: pr) = (fs1.set (c :: pr).reverse Node.dir, none) := by
  have hd : env.mkdirDenied (c :: pr).reverse = false := by simpa using hden
  simp only [mkdirAllRev, h, hrec, hd, Bool.false_eq_true, if_false]

/-- What `os.MkdirAll` changes: only missing paths, each turned into a directory, each a
non-empty prefix of the requested path. -/
theorem mkdirAllRev_frame (env : Env) (fs : FS) (rev : List String) (q : Path) :
    (mkdirAllRev env fs rev).1 q = fs q ∨
      (fs q = none ∧ (mkdirAllRev env fs rev).1 q = some Node.dir ∧ q ≠ [] ∧
        q.reverse <:+ rev) := by
  induction rev with
  | nil => simp [mkdirAllRev]
  | cons c pr ih =>
    have hsuf : ∀ l : List String, l <:+ pr → l <:+ c :: pr := fun l hl =>
      List.IsSuffix.trans hl (List.suffix_cons c pr)
    have lift : (mkdirAllRev env fs pr).1 q = fs q ∨
        (fs q = none ∧ (mkdirAllRev env fs pr).1 q = some Node.dir ∧ q ≠ [] ∧
          q.reverse <:+ c :: pr) := by
      rcases ih with h | ⟨h1, h2, h3, h4⟩
      · exact Or.inl h
      · exact Or.inr ⟨h1, h2, h3, hsuf _ h4⟩
    cases hp : fs (c :: pr).reverse with
    | some node =>
      cases node with
      | file d => rw [mkdirAllRev_file env fs c pr d hp]; exact Or.inl rfl
      | dir => rw [mkdirAllRev_dir env fs c pr hp]; exact Or.inl rfl
    | none =>
      cases hrec : mkdirAllRev env fs pr with
      | mk fs1 e =>
        rw [hrec] at lift
        cases e with
        | some msg => rw [mkdirAllRev_parentErr env fs fs1 c pr msg hp hrec]; exact lift
        | none =>
          by_cases hden : env.mkdirDenied (c :: pr).reverse = true
          · rw [mkdirAllRev_denied env fs fs1 c pr hp hrec hden]; exact lift
          · rw [mkdirAllRev_created env fs fs1 c pr hp hrec hden]
            by_cases hq : q = (c :: pr).reverse
            · right
              subst hq
              refine ⟨hp, FS.set_same _ _ _, ?_, ?_⟩
              · simp
              · simp
            · have hset : (fs1.set (c :: pr).reverse Node.dir) q = fs1 q :=
                FS.set_other _ _ _ _ hq
              show (fs1.set (c :: pr).reverse Node.dir) q = fs q ∨
                (fs q = none ∧ (fs1.set (c :: pr).reverse Node.dir) q = some Node.dir ∧ q ≠ [] ∧
                  q.reverse <:+ c :: pr)
              rw [hset]
              exact lift

/-- After a successful `os.MkdirAll` of a non-empty path, the path is a directory. -/
theorem mkdirAllRev_ok_isDir (env : Env) (fs : FS) (c : String) (pr : List String)
    (h : (mkdirAllRev env fs (c :: pr)).2 = none) :
    (mkdirAllRev env fs (c :: pr)).1 (c :: pr).reverse = some Node.dir := by
  cases hp : fs (c :: pr).reverse with
  | some node =>
    cases node with
    | file d => rw [mkdirAllRev_file env fs c pr d hp] at h; simp at h
    | dir => rw [mkdirAllRev_dir env fs c pr hp]; exact hp
  | none =>
    cases hrec : mkdirAllRev env fs pr with
    | mk fs1 e =>
      cases e with
      | some msg => rw [mkdirAllRev_parentErr env fs fs1 c pr msg hp hrec] at h; simp at h
      | none =>
        by_cases hden : env.mkdirDenied (c :: pr).reverse = true
        · rw [mkdirAllRev_denied env fs fs1 c pr hp hrec hden] at h; simp at h
        · rw [mkdirAllRev_created env fs fs1 c pr hp hrec hden]
          exact FS.set_same _ _ _

/-- The frame of `os.MkdirAll` in terms of the path itself. -/
theorem osMkdirAll_frame (env : Env) (fs : FS) (path q : Path) :
    (osMkdirAll env fs path).1 q = fs q ∨
      (fs q = none ∧ (osMkdirAll env fs path).1 q = some Node.dir ∧ q ≠ [] ∧ q <+: path) := by
  rcases mkdirAllRev_frame env fs path.reverse q with h | ⟨h1, h2, h3, h4⟩
  · exact Or.inl h
  · exact Or.inr ⟨h1, h2, h3, List.reverse_suffix.mp h4⟩

/-- A path that is no prefix of the requested one is untouched by `os.MkdirAll`. -/
theorem osMkdirAll_untouched (env : Env) (fs : FS) (path q : Path) (h : ¬ q <+: path) :
    (osMkdirAll env fs path).1 q = fs q := by
  rcases osMkdirAll_frame env fs path q with h1 | ⟨_, _, _, h4⟩
  · exact h1
  · exact absurd h4 h

/-- `os.MkdirAll` of an existing directory succeeds and changes nothing. -/
theorem osMkdirAll_of_isDir (env : Env) (fs : FS) (path : Path)
    (h : fs path = some Node.dir) : osMkdirAll env fs path = (fs, none) := by
  unfold osMkdirAll
  cases hr : path.reverse with
  | nil => simp [mkdirAllRev]
  | cons c pr =>
    have hp : (c :: pr).reverse = path := by rw [← hr, List.reverse_reverse]
    exact mkdirAllRev_dir env fs c pr (hp ▸ h)

/-- The destination file is not a prefix of its own directory. -/
theorem dest_outside_binDir (binDir : Path) (name : String) : ¬ (binDir ++ [name]) <+: binDir := by
  intro h
  have := h.length_le
  simp at this

/-! ## Lemmas on extraction -/

theorem osStat_congr (env : Env) (fs fs1 : FS) (p : Path) (h : fs1 p = fs p) :
    osStat env fs1 p = osStat env fs p := by
  simp only [osStat, h]

theorem extractBinaryCalls_append (t u : List Event) :
    extractBinaryCalls (t ++ u) = extractBinaryCalls t ++ extractBinaryCalls u := by
  simp [extractBinaryCalls, List.filterMap_append]

theorem extractFFmpegCalls_append (t u : List Event) :
    extractFFmpegCalls (t ++ u) = extractFFmpegCalls t ++ extractFFmpegCalls u := by
  simp [extractFFmpegCalls, List.filterMap_append]

/-- The characterisation of `needsExtraction` by the outcome of its four checks. -/
theorem needsExtraction_iff (b : Build) (env : Env) (fs : FS) (destPath : Path) :
    needsExtraction b env fs destPath = true ↔
      (osStat env fs destPath = StatResult.notExist ∨
       osStat env fs destPath = StatResult.otherErr ∨
       b.embeddedBinary b.embeddedBinaryPath = none ∨
       (∃ f, b.embeddedBinary b.embeddedBinaryPath = some f ∧ f.statOk = false) ∨
       (∃ n f, osStat env fs destPath = StatResult.ok n ∧
          b.embeddedBinary b.embeddedBinaryPath = some f ∧ n ≠ f.data.length)) := by
  unfold needsExtraction
  cases hs : osStat env fs destPath with
  | notExist => simp
  | otherErr => simp
  | ok n =>
    cases he : b.embeddedBinary b.embeddedBinaryPath with
    | none => simp
    | some f =>
      cases hf : f.statOk with
      | false => simp [hf]
      | true => simp [hf]

/-- With the destination present at the payload's size, nothing is to be extracted. -/
theorem needsExtraction_same_size (b : Build) (env : Env) (fs : FS) (destPath : Path)
    (f : EmbeddedFile) (he : b.embeddedBinary b.embeddedBinaryPath = some f)
    (hf : f.statOk = true) (hs : osStat env fs destPath = StatResult.ok f.data.length) :
    needsExtraction b env fs destPath = false := by
  simp [needsExtraction, hs, he, hf]

/-- When the destination exists at the payload's size, `extractFFmpeg` logs no call of
`extractBinary` and leaves the destination as it was. -/
theorem extractFFmpeg_same_size (b : Build) (env : Env) (os : OS) (appDataDir : Path)
    (f : EmbeddedFile) (he : b.embeddedBinary b.embeddedBinaryPath = some f)
    (hf : f.statOk = true)
    (hs : osStat env os.fs (appDataDir ++ ["bin"] ++ [b.embeddedBinaryName]) =
      StatResult.ok f.data.length) :
    extractBinaryCalls (extractFFmpeg b env os appDataDir).2.trace =
        extractBinaryCalls os.trace ∧
      (extractFFmpeg b env os appDataDir).2.fs (appDataDir ++ ["bin"] ++ [b.embeddedBinaryName]) =
        os.fs (appDataDir ++ ["bin"] ++ [b.embeddedBinaryName]) := by
  have hun : (osMkdirAll env os.fs (appDataDir ++ ["bin"])).1
      (appDataDir ++ ["bin"] ++ [b.embeddedBinaryName]) =
      os.fs (appDataDir ++ ["bin"] ++ [b.embeddedBinaryName]) :=
    osMkdirAll_untouched env os.fs _ _ (dest_outside_binDir _ _)
  cases hm : osMkdirAll env os.fs (appDataDir ++ ["bin"]) with
  | mk fs1 e =>
    rw [hm] at hun
    cases e with
    | some msg =>
      simp only [extractFFmpeg, he, hm]
      exact ⟨by simp [extractBinaryCalls], hun⟩
    | none =>
      have hne : needsExtraction b env fs1 (appDataDir ++ ["bin"] ++ [b.embeddedBinaryName]) =
          false :=
        needsExtraction_same_size b env fs1 _ f he hf
          ((osStat_congr env os.fs fs1 _ hun).trans hs)
      simp only [extractFFmpeg, he, hm, hne]
      exact ⟨by simp [extractBinaryCalls], hun⟩

/-! ## Lemmas on the once-guard -/

/-- With the once-flag set, a call returns the cached pair and changes nothing. -/
theorem GetEmbeddedFFmpegPath_done (b : Build) (env : Env) (s : Proc) (d : Path)
    (h : s.onceDone = true) :
    GetEmbeddedFFmpegPath b env s d = ((s.extractedPath, s.extractErr), s) := by
  simp [GetEmbeddedFFmpegPath, h]

/-- With the once-flag unset, a call runs `extractFFmpeg` and caches its result. -/
theorem GetEmbeddedFFmpegPath_first (b : Build) (env : Env) (s : Proc) (d : Path)
    (h : s.onceDone = false) :
    GetEmbeddedFFmpegPath b env s d =
      ((extractFFmpeg b env s.os d).1,
        { onceDone := true, extractedPath := (extractFFmpeg b env s.os d).1.1,
          extractErr := (extractFFmpeg b env s.os d).1.2, os := (extractFFmpeg b env s.os d).2 }) := by
  simp [GetEmbeddedFFmpegPath, h]

/-- Any further calls after the flag is set all return the cached pair. -/
theorem runCalls_done (b : Build) (env : Env) (s : Proc) (dirs : List Path)
    (h : s.onceDone = true) :
    runCalls b env s dirs =
      (List.replicate dirs.length (s.extractedPath, s.extractErr), s) := by
  induction dirs with
  | nil => simp [runCalls]
  | cons d rest ih =>
    simp only [runCalls, GetEmbeddedFFmpegPath_done b env s d h, ih, List.length_cons,
      List.replicate_succ]

/-- `extractBinary` logs exactly its own call. -/
theorem extractBinary_trace (b : Build) (env : Env) (os : OS) (dest : Path) :
    (extractBinary b env os dest).2.trace = os.trace ++ [Event.extractBinary dest] := by
  unfold extractBinary
  cases b.embeddedBinary b.embeddedBinaryPath with
  | none => rfl
  | some f =>
    dsimp only
    cases osOpenFileTrunc env os.fs dest with
    | error e => rfl
    | ok fs2 => cases env.copyFailAt <;> rfl

theorem extractFFmpeg_noEmbed (b : Build) (env : Env) (os : OS) (d : Path)
    (he : b.embeddedBinary b.embeddedBinaryPath = none) :
    extractFFmpeg b env os d =
      (([], some ("embedded FFmpeg binary not found for " ++ b.GOOS ++ "/" ++ b.GOARCH ++
        ": file does not exist")),
       { fs := os.fs, trace := os.trace ++ [Event.extractFFmpeg d] }) := by
  simp only [extractFFmpeg, he]

theorem extractFFmpeg_mkdirErr (b : Build) (env : Env) (os : OS) (d : Path)
    (f : EmbeddedFile) (fs1 : FS) (e : String)
    (he : b.embeddedBinary b.embeddedBinaryPath = some f)
    (hm : osMkdirAll env os.fs (d ++ ["bin"]) = (fs1, some e)) :
    extractFFmpeg b env os d =
      (([], some ("failed to create bin directory: " ++ e)),
       { fs := fs1, trace := os.trace ++ [Event.extractFFmpeg d] }) := by
  simp only [extractFFmpeg, he, hm]

theorem extractFFmpeg_upToDate (b : Build) (env : Env) (os : OS) (d : Path)
    (f : EmbeddedFile) (fs1 : FS)
    (he : b.embeddedBinary b.embeddedBinaryPath = some f)
    (hm : osMkdirAll env os.fs (d ++ ["bin"]) = (fs1, none))
    (hn : needsExtraction b env fs1 (d ++ ["bin"] ++ [b.embeddedBinaryName]) = false) :
    extractFFmpeg b env os d =
      ((d ++ ["bin"] ++ [b.embeddedBinaryName], none),
       { fs := fs1, trace := os.trace ++ [Event.extractFFmpeg d] }) := by
  simp only [extractFFmpeg, he, hm, hn, Bool.false_eq_true, if_false]

theorem extractFFmpeg_extracts (b : Build) (env : Env) (os : OS) (d : Path)
    (f : EmbeddedFile) (fs1 : FS)
    (he : b.embeddedBinary b.embeddedBinaryPath = some f)
    (hm : osMkdirAll env os.fs (d ++ ["bin"]) = (fs1, none))
    (hn : needsExtraction b env fs1 (d ++ ["bin"] ++ [b.embeddedBinaryName]) = true) :
    extractFFmpeg b env os d =
      match extractBinary b env { fs := fs1, trace := os.trace ++ [Event.extractFFmpeg d] }
          (d ++ ["bin"] ++ [b.embeddedBinaryName]) with
      | (some e, os2) => (([], some e), os2)
      | (none, os2) => ((d ++ ["bin"] ++ [b.embeddedBinaryName], none), os2) := by
  simp only [extractFFmpeg, he, hm, hn, if_true]

/-- Every execution of `extractFFmpeg` logs itself once and logs no other execution
of `extractFFmpeg`. -/
theorem extractFFmpeg_trace (b : Build) (env : Env) (os : OS) (d : Path) :
    extractFFmpegCalls (extractFFmpeg b env os d).2.trace =
      extractFFmpegCalls os.trace ++ [d] := by
  have one : extractFFmpegCalls (os.trace ++ [Event.extractFFmpeg d]) =
      extractFFmpegCalls os.trace ++ [d] := by
    rw [extractFFmpegCalls_append]; rfl
  cases he : b.embeddedBinary b.embeddedBinaryPath with
  | none => rw [extractFFmpeg_noEmbed b env os d he]; exact one
  | some f =>
    cases hm : osMkdirAll env os.fs (d ++ ["bin"]) with
    | mk fs1 e =>
      cases e with
      | some msg => rw [extractFFmpeg_mkdirErr b env os d f fs1 msg he hm]; exact one
      | none =>
        cases hn : needsExtraction b env fs1 (d ++ ["bin"] ++ [b.embeddedBinaryName]) with
        | false => rw [extractFFmpeg_upToDate b env os d f fs1 he hm hn]; exact one
        | true =>
          rw [extractFFmpeg_extracts b env os d f fs1 he hm hn]
          have key := extractBinary_trace b env
            { fs := fs1, trace := os.trace ++ [Event.extractFFmpeg d] }
            (d ++ ["bin"] ++ [b.embeddedBinaryName])
          cases hx : extractBinary b env
              { fs := fs1, trace := os.trace ++ [Event.extractFFmpeg d] }
              (d ++ ["bin"] ++ [b.embeddedBinaryName]) with
          | mk e3 os2 =>
            rw [hx] at key
            have key2 : os2.trace = os.trace ++ [Event.extractFFmpeg d] ++
                [Event.extractBinary (d ++ ["bin"] ++ [b.embeddedBinaryName])] := key
            have fin : extractFFmpegCalls os2.trace = extractFFmpegCalls os.trace ++ [d] := by
              rw [key2, extractFFmpegCalls_append, one]
              simp [extractFFmpegCalls]
            cases e3 with
            | none => exact fin
            | some m => exact fin

/-! ## Lemmas on the candidate loop -/

/-- The loop returns the first candidate whose stat succeeds. -/
theorem findFFmpegLoop_first (statOk : String → Bool) (pre : List String) (c : String)
    (post : List String) (hpre : ∀ q ∈ pre, statOk q = false) (hc : statOk c = true) :
    findFFmpegLoop statOk (pre ++ c :: post) = c := by
  induction pre with
  | nil => simp [findFFmpegLoop, hc]
  | cons x xs ih =>
    have hx : statOk x = false := hpre x (List.mem_cons_self _ _)
    have hxs : ∀ q ∈ xs, statOk q = false := fun q hq => hpre q (List.mem_cons_of_mem _ hq)
    simp only [List.cons_append, findFFmpegLoop, hx, Bool.false_eq_true, if_false]
    exact ih hxs

/-- With no candidate whose stat succeeds, the loop falls through to `"ffmpeg"`. -/
theorem findFFmpegLoop_none (statOk : String → Bool) (l : List String)
    (h : ∀ q ∈ l, statOk q = false) : findFFmpegLoop statOk l = "ffmpeg" := by
  induction l with
  | nil => rfl
  | cons x xs ih =>
    have hx : statOk x = false := h x (List.mem_cons_self _ _)
    simp only [findFFmpegLoop, hx, Bool.false_eq_true, if_false]
    exact ih (fun q hq => h q (List.mem_cons_of_mem _ hq))

/-- The loop either falls through, or stops at a first candidate whose stat succeeds. -/
theorem findFFmpegLoop_cases (statOk : String → Bool) (l : List String) :
    (∀ q ∈ l, statOk q = false) ∨
      ∃ pre c post, l = pre ++ c :: post ∧ (∀ q ∈ pre, statOk q = false) ∧ statOk c = true := by
  induction l with
  | nil => left; simp
  | cons x xs ih =>
    cases hx : statOk x with
    | true => exact Or.inr ⟨[], x, xs, rfl, by simp, hx⟩
    | false =>
      rcases ih with h | ⟨pre, c, post, hl, hpre, hc⟩
      · left
        intro q hq
        rcases List.mem_cons.mp hq with rfl | hq
        · exact hx
        · exact h q hq
      · right
        refine ⟨x :: pre, c, post, by simp [hl], ?_, hc⟩
        intro q hq
        rcases List.mem_cons.mp hq with rfl | hq
        · exact hx
        · exact hpre q hq

/-! ## Lemmas on what extraction writes -/

/-- A successful `os.OpenFile` touches the opened path only. -/
theorem osOpenFileTrunc_frame (env : Env) (fs fs2 : FS) (p q : Path)
    (h : osOpenFileTrunc env fs p = Except.ok fs2) (hq : q ≠ p) : fs2 q = fs q := by
  unfold osOpenFileTrunc at h
  split at h
  · cases h
  · split at h
    · cases h
    · split at h
      · cases h
      · cases h
        exact FS.set_other _ _ _ _ hq

/-- `extractBinary` touches its destination only. -/
theorem extractBinary_frame (b : Build) (env : Env) (os : OS) (dest q : Path) (hq : q ≠ dest) :
    (extractBinary b env os dest).2.fs q = os.fs q := by
  unfold extractBinary
  cases b.embeddedBinary b.embeddedBinaryPath with
  | none => rfl
  | some f =>
    dsimp only
    cases ho : osOpenFileTrunc env os.fs dest with
    | error e => rfl
    | ok fs2 =>
      have h2 := osOpenFileTrunc_frame env os.fs fs2 dest q ho hq
      cases env.copyFailAt with
      | none =>
        show (fs2.set dest (Node.file f.data)) q = os.fs q
        rw [FS.set_other _ _ _ _ hq, h2]
      | some k =>
        show (fs2.set dest (Node.file (f.data.take k))) q = os.fs q
        rw [FS.set_other _ _ _ _ hq, h2]

/-- Away from the destination file, `extractFFmpeg` leaves what `os.MkdirAll` left. -/
theorem extractFFmpeg_fs_away (b : Build) (env : Env) (os : OS) (d q : Path)
    (hq : q ≠ d ++ ["bin"] ++ [b.embeddedBinaryName]) :
    (extractFFmpeg b env os d).2.fs q = os.fs q ∨
      (extractFFmpeg b env os d).2.fs q = (osMkdirAll env os.fs (d ++ ["bin"])).1 q := by
  cases he : b.embeddedBinary b.embeddedBinaryPath with
  | none => rw [extractFFmpeg_noEmbed b env os d he]; exact Or.inl rfl
  | some f =>
    cases hm : osMkdirAll env os.fs (d ++ ["bin"]) with
    | mk fs1 e =>
      cases e with
      | some msg => rw [extractFFmpeg_mkdirErr b env os d f fs1 msg he hm]; exact Or.inr rfl
      | none =>
        cases hn : needsExtraction b env fs1 (d ++ ["bin"] ++ [b.embeddedBinaryName]) with
        | false => rw [extractFFmpeg_upToDate b env os d f fs1 he hm hn]; exact Or.inr rfl
        | true =>
          rw [extractFFmpeg_extracts b env os d f fs1 he hm hn]
          have key := extractBinary_frame b env
            { fs := fs1, trace := os.trace ++ [Event.extractFFmpeg d] }
            (d ++ ["bin"] ++ [b.embeddedBinaryName]) q hq
          cases hx : extractBinary b env
              { fs := fs1, trace := os.trace ++ [Event.extractFFmpeg d] }
              (d ++ ["bin"] ++ [b.embeddedBinaryName]) with
          | mk e3 os2 =>
            rw [hx] at key
            cases e3 with
            | none => exact Or.inr key
            | some m => exact Or.inr key

/-- The result of `extractFFmpeg`: the destination path with a nil error, or the empty
path with an error. -/
theorem extractFFmpeg_result (b : Build) (env : Env) (os : OS) (d : Path) :
    (extractFFmpeg b env os d).1 = (d ++ ["bin"] ++ [b.embeddedBinaryName], none) ∨
      ∃ msg, (extractFFmpeg b env os d).1 = ([], some msg) := by
  cases he : b.embeddedBinary b.embeddedBinaryPath with
  | none => rw [extractFFmpeg_noEmbed b env os d he]; exact Or.inr ⟨_, rfl⟩
  | some f =>
    cases hm : osMkdirAll env os.fs (d ++ ["bin"]) with
    | mk fs1 e =>
      cases e with
      | some msg => rw [extractFFmpeg_mkdirErr b env os d f fs1 msg he hm]; exact Or.inr ⟨_, rfl⟩
      | none =>
        cases hn : needsExtraction b env fs1 (d ++ ["bin"] ++ [b.embeddedBinaryName]) with
        | false => rw [extractFFmpeg_upToDate b env os d f fs1 he hm hn]; exact Or.inl rfl
        | true =>
          rw [extractFFmpeg_extracts b env os d f fs1 he hm hn]
          cases extractBinary b env
              { fs := fs1, trace := os.trace ++ [Event.extractFFmpeg d] }
              (d ++ ["bin"] ++ [b.embeddedBinaryName]) with
          | mk e3 os2 =>
            cases e3 with
            | none => exact Or.inl rfl
            | some m => exact Or.inr ⟨_, rfl⟩

/-- When the parent is the root or an existing directory, `os.MkdirAll` of `parent/c`
changes at most `parent/c`. -/
theorem osMkdirAll_parent_isDir (env : Env) (fs : FS) (parent : Path) (c : String) (q : Path)
    (hpar : parent = [] ∨ fs parent = some Node.dir)
    (hq : (osMkdirAll env fs (parent ++ [c])).1 q ≠ fs q) : q = parent ++ [c] := by
  have hrev : (parent ++ [c]).reverse = c :: parent.reverse := by simp
  have hback : (c :: parent.reverse).reverse = parent ++ [c] := by simp
  have hparent : mkdirAllRev env fs parent.reverse = (fs, none) := by
    rcases hpar with h | h
    · subst h; rfl
    · have := osMkdirAll_of_isDir env fs parent h
      exact this
  unfold osMkdirAll at hq
  rw [hrev] at hq
  cases hp : fs (c :: parent.reverse).reverse with
  | some node =>
    cases node with
    | file dta => rw [mkdirAllRev_file env fs c _ dta hp] at hq; exact absurd rfl hq
    | dir => rw [mkdirAllRev_dir env fs c _ hp] at hq; exact absurd rfl hq
  | none =>
    by_cases hden : env.mkdirDenied (c :: parent.reverse).reverse = true
    · rw [mkdirAllRev_denied env fs fs c _ hp hparent hden] at hq; exact absurd rfl hq
    · rw [mkdirAllRev_created env fs fs c _ hp hparent hden] at hq
      by_contra hne
      apply hq
      rw [hback]
      exact FS.set_other _ _ _ _ hne

/-- `HasEmbeddedFFmpeg` on a linux build embedding `n` bytes compares `n` with 1024*1024. -/
theorem HasEmbeddedFFmpeg_ofSize (n : Nat) :
    HasEmbeddedFFmpeg (linuxAmd64 (embedOfSize n)) = decide (n > 1024 * 1024) := by
  simp [HasEmbeddedFFmpeg, linuxAmd64, embedOfSize]

/-! ## Theorems -/

/-- C1: `GetFileType` is a total function of the extension alone; it returns video exactly
on the keys of `VideoFormats`, image exactly on the keys of `ImageFormats`, unknown exactly
on the strings that are keys of neither; no extension is a key of both maps, and doing the
two lookups in the other order gives the same answer. -/
theorem GetFileType_classifies (ext : String) :
    (GetFileType ext = FileTypeVideo ↔ ext ∈ VideoFormats.keys) ∧
    (GetFileType ext = FileTypeImage ↔ ext ∈ ImageFormats.keys) ∧
    (GetFileType ext = FileTypeUnknown ↔
      (ext ∉ VideoFormats.keys ∧ ext ∉ ImageFormats.keys)) ∧
    ¬ (ext ∈ VideoFormats.keys ∧ ext ∈ ImageFormats.keys) ∧
    (if ImageFormats.index ext then FileTypeImage
      else if VideoFormats.index ext then FileTypeVideo
      else FileTypeUnknown) = GetFileType ext := by
  have hV := GoMap.index_eq_true_iff VideoFormats VideoFormats_all_true ext
  have hI := GoMap.index_eq_true_iff ImageFormats ImageFormats_all_true ext
  have hdis := video_image_keys_disjoint ext
  have hvi : FileTypeVideo ≠ FileTypeImage := by decide
  have hvu : FileTypeVideo ≠ FileTypeUnknown := by decide
  have hiu : FileTypeImage ≠ FileTypeUnknown := by decide
  by_cases h1 : VideoFormats.index ext = true
  · have hk := hV.mp h1
    have hni : ext ∉ ImageFormats.keys := fun h => hdis ⟨hk, h⟩
    have h2 : ¬ ImageFormats.index ext = true := fun h => hni (hI.mp h)
    simp only [GetFileType, h1, h2, if_true]
    simp [hk, hni, hvi, hvu]
  · have hnk : ext ∉ VideoFormats.keys := fun h => h1 (hV.mpr h)
    by_cases h2 : ImageFormats.index ext = true
    · have hk := hI.mp h2
      simp only [GetFileType, h1, h2, if_true]
      simp [hk, hnk, hvi.symm, hiu]
    · have hni : ext ∉ ImageFormats.keys := fun h => h2 (hI.mpr h)
      simp only [GetFileType, h1, h2]
      simp [hnk, hni, hvu.symm, hiu.symm]

/-- C2: `needsExtraction` is true exactly when the destination is missing, or its stat
fails otherwise, or the embedded payload cannot be opened or stat'ed, or the two byte sizes
differ; hence, with the destination present at the payload's size, `extractFFmpeg` makes
no call of `extractBinary` and the destination keeps its contents. -/
theorem needsExtraction_spec (b : Build) (env : Env) (os : OS) (appDataDir : Path) :
    (∀ (fs : FS) (destPath : Path), needsExtraction b env fs destPath = true ↔
      (osStat env fs destPath = StatResult.notExist ∨
       osStat env fs destPath = StatResult.otherErr ∨
       b.embeddedBinary b.embeddedBinaryPath = none ∨
       (∃ f, b.embeddedBinary b.embeddedBinaryPath = some f ∧ f.statOk = false) ∨
       (∃ n f, osStat env fs destPath = StatResult.ok n ∧
          b.embeddedBinary b.embeddedBinaryPath = some f ∧ n ≠ f.data.length))) ∧
    (∀ f : EmbeddedFile, b.embeddedBinary b.embeddedBinaryPath = some f → f.statOk = true →
      osStat env os.fs (appDataDir ++ ["bin"] ++ [b.embeddedBinaryName]) =
        StatResult.ok f.data.length →
      extractBinaryCalls (extractFFmpeg b env os appDataDir).2.trace =
          extractBinaryCalls os.trace ∧
        (extractFFmpeg b env os appDataDir).2.fs
            (appDataDir ++ ["bin"] ++ [b.embeddedBinaryName]) =
          os.fs (appDataDir ++ ["bin"] ++ [b.embeddedBinaryName])) :=
  ⟨fun fs destPath => needsExtraction_iff b env fs destPath,
   fun f he hf hs => extractFFmpeg_same_size b env os appDataDir f he hf hs⟩

/-- Witness of C2: on a linux build whose destination `app/bin/ffmpeg` already holds three
other bytes, no `extractBinary` call is logged and the file is left as it was. -/
theorem needsExtraction_spec_witness :
    osStat envAllowAll fsExtracted (["app"] ++ ["bin"] ++ ["ffmpeg"]) = StatResult.ok 3 ∧
    extractBinaryCalls
        (extractFFmpeg (linuxAmd64 embedThreeBytes) envAllowAll ⟨fsExtracted, []⟩ ["app"]).2.trace
      = [] ∧
    (extractFFmpeg (linuxAmd64 embedThreeBytes) envAllowAll ⟨fsExtracted, []⟩ ["app"]).2.fs
        ["app", "bin", "ffmpeg"] = some (Node.file [7, 8, 9]) :=
  have hs : osStat envAllowAll fsExtracted (["app"] ++ ["bin"] ++ ["ffmpeg"]) =
      StatResult.ok 3 := by decide
  ⟨hs, (needsExtraction_spec (linuxAmd64 embedThreeBytes) envAllowAll ⟨fsExtracted, []⟩
    ["app"]).2 ⟨[1, 2, 3], true⟩ rfl rfl hs⟩

/-- C3: in any sequence of calls of `GetEmbeddedFFmpegPath` made by one process from its
start, every call returns the pair produced by `extractFFmpeg` on the first call's
directory, `extractFFmpeg` is executed once, with that directory, and the world is left as
that one execution left it; an empty sequence executes nothing. -/
theorem GetEmbeddedFFmpegPath_once (b : Build) (env : Env) (os : OS) (d : Path)
    (rest : List Path) :
    (runCalls b env (Proc.start os) (d :: rest)).1 =
        List.replicate (rest.length + 1) (extractFFmpeg b env os d).1 ∧
    extractFFmpegCalls (runCalls b env (Proc.start os) (d :: rest)).2.os.trace =
        extractFFmpegCalls os.trace ++ [d] ∧
    (runCalls b env (Proc.start os) (d :: rest)).2.os = (extractFFmpeg b env os d).2 ∧
    (runCalls b env (Proc.start os) (d :: rest)).2.onceDone = true ∧
    runCalls b env (Proc.start os) [] = ([], Proc.start os) := by
  have h1 := GetEmbeddedFFmpegPath_first b env (Proc.start os) d rfl
  have hrun : runCalls b env (Proc.start os) (d :: rest) =
      (List.replicate (rest.length + 1) (extractFFmpeg b env os d).1,
        { onceDone := true, extractedPath := (extractFFmpeg b env os d).1.1,
          extractErr := (extractFFmpeg b env os d).1.2, os := (extractFFmpeg b env os d).2 }) := by
    simp only [runCalls, h1]
    rw [runCalls_done b env _ rest rfl]
    simp [Proc.start, List.replicate_succ]
  rw [hrun]
  exact ⟨rfl, extractFFmpeg_trace b env os d, rfl, rfl, rfl⟩

/-- C5, as stated, fails on darwin: when the relative path `ffmpeg` exists, a candidate
exists and `findFFmpeg` still returns `"ffmpeg"`, so that result does not show that no
candidate exists. -/
theorem findFFmpeg_fallback_not_exact :
    findFFmpeg "darwin" (fun _ => "") joinSlash (fun p => p == "ffmpeg") = "ffmpeg" ∧
    "ffmpeg" ∈ ffmpegCandidates "darwin" (fun _ => "") joinSlash ∧
    ¬ (findFFmpeg "darwin" (fun _ => "") joinSlash (fun p => p == "ffmpeg") = "ffmpeg" ↔
        ∀ c ∈ ffmpegCandidates "darwin" (fun _ => "") joinSlash,
          (fun p => p == "ffmpeg") c = false) := by
  refine ⟨by decide, by decide, ?_⟩
  intro h
  have h2 := h.mp (by decide) "ffmpeg" (by decide)
  simp at h2

/-- C5 (amended): `findFFmpeg` works on the fixed ordered candidate list of the OS, returns
the first candidate whose stat succeeds, and returns `"ffmpeg"` when no candidate exists;
it returns `"ffmpeg"` exactly when no candidate exists or the first candidate whose stat
succeeds is itself `"ffmpeg"`. -/
theorem findFFmpeg_spec (goos : String) (getenv : String → String)
    (join : List String → String) (statOk : String → Bool) :
    (goos = "windows" → ffmpegCandidates goos getenv join =
      ["ffmpeg.exe", join [getenv "ProgramFiles", "ffmpeg", "bin", "ffmpeg.exe"],
       join [getenv "ProgramFiles(x86)", "ffmpeg", "bin", "ffmpeg.exe"]]) ∧
    (goos = "darwin" → ffmpegCandidates goos getenv join =
      ["ffmpeg", "/usr/local/bin/ffmpeg", "/opt/homebrew/bin/ffmpeg"]) ∧
    (goos ≠ "windows" → goos ≠ "darwin" → ffmpegCandidates goos getenv join =
      ["ffmpeg", "/usr/bin/ffmpeg", "/usr/local/bin/ffmpeg"]) ∧
    (∀ pre c post, ffmpegCandidates goos getenv join = pre ++ c :: post →
      (∀ q ∈ pre, statOk q = false) → statOk c = true →
      findFFmpeg goos getenv join statOk = c) ∧
    ((∀ c ∈ ffmpegCandidates goos getenv join, statOk c = false) →
      findFFmpeg goos getenv join statOk = "ffmpeg") ∧
    (findFFmpeg goos getenv join statOk = "ffmpeg" ↔
      ((∀ c ∈ ffmpegCandidates goos getenv join, statOk c = false) ∨
        ∃ pre post, ffmpegCandidates goos getenv join = pre ++ "ffmpeg" :: post ∧
          (∀ q ∈ pre, statOk q = false) ∧ statOk "ffmpeg" = true)) := by
  refine ⟨?_, ?_, ?_, ?_, ?_, ?_⟩
  · intro h; simp [ffmpegCandidates, h]
  · intro h; subst h; simp [ffmpegCandidates]
  · intro h1 h2; simp [ffmpegCandidates, h1, h2]
  · intro pre c post hl hpre hc
    unfold findFFmpeg
    rw [hl]
    exact findFFmpegLoop_first statOk pre c post hpre hc
  · intro h
    exact findFFmpegLoop_none statOk _ h
  · constructor
    · intro hres
      rcases findFFmpegLoop_cases statOk (ffmpegCandidates goos getenv join) with
        h | ⟨pre, c, post, hl, hpre, hc⟩
      · exact Or.inl h
      · right
        have hfirst : findFFmpeg goos getenv join statOk = c := by
          unfold findFFmpeg
          rw [hl]
          exact findFFmpegLoop_first statOk pre c post hpre hc
        have hcf : c = "ffmpeg" := hfirst.symm.trans hres
        subst hcf
        exact ⟨pre, post, hl, hpre, hc⟩
    · rintro (h | ⟨pre, post, hl, hpre, hc⟩)
      · exact findFFmpegLoop_none statOk _ h
      · unfold findFFmpeg
        rw [hl]
        exact findFFmpegLoop_first statOk pre "ffmpeg" post hpre hc

/-- Witness of C5 (amended): on linux with only `/usr/bin/ffmpeg` present, the second
candidate is returned. -/
theorem findFFmpeg_spec_witness :
    ffmpegCandidates "linux" (fun _ => "") joinSlash =
        ["ffmpeg"] ++ "/usr/bin/ffmpeg" :: ["/usr/local/bin/ffmpeg"] ∧
    (∀ q ∈ ["ffmpeg"], (fun p => p == "/usr/bin/ffmpeg") q = false) ∧
    findFFmpeg "linux" (fun _ => "") joinSlash (fun p => p == "/usr/bin/ffmpeg") =
      "/usr/bin/ffmpeg" :=
  have hl : ffmpegCandidates "linux" (fun _ => "") joinSlash =
      ["ffmpeg"] ++ "/usr/bin/ffmpeg" :: ["/usr/local/bin/ffmpeg"] := by decide
  have hpre : ∀ q ∈ ["ffmpeg"], (fun p => p == "/usr/bin/ffmpeg") q = false := by decide
  ⟨hl, hpre,
    (findFFmpeg_spec "linux" (fun _ => "") joinSlash (fun p => p == "/usr/bin/ffmpeg")).2.2.2.1
      ["ffmpeg"] "/usr/bin/ffmpeg" ["/usr/local/bin/ffmpeg"] hl hpre (by decide)⟩

/-- C6, as stated, fails when the data directory does not exist yet: `os.MkdirAll` then
also creates `data` and `data/app`, which are neither `data/app/bin` nor the binary. -/
theorem extractFFmpeg_creates_parents :
    (extractFFmpeg (linuxAmd64 embedThreeBytes) envAllowAll ⟨fsEmpty, []⟩ ["data", "app"]).1 =
      (["data", "app", "bin", "ffmpeg"], none) ∧
    fsEmpty ["data", "app"] = none ∧
    (extractFFmpeg (linuxAmd64 embedThreeBytes) envAllowAll ⟨fsEmpty, []⟩ ["data", "app"]).2.fs
      ["data", "app"] = some Node.dir ∧
    ["data", "app"] ≠ ["data", "app"] ++ ["bin"] ∧
    ["data", "app"] ≠ ["data", "app"] ++ ["bin"] ++ ["ffmpeg"] ∧
    ¬ (∀ q : Path,
        (extractFFmpeg (linuxAmd64 embedThreeBytes) envAllowAll ⟨fsEmpty, []⟩
          ["data", "app"]).2.fs q ≠ fsEmpty q →
        q = ["data", "app"] ++ ["bin"] ∨ q = ["data", "app"] ++ ["bin"] ++ ["ffmpeg"]) := by
  refine ⟨by decide, by decide, by decide, by decide, by decide, ?_⟩
  intro h
  have h2 := h ["data", "app"] (by decide)
  revert h2
  decide

/-- C6 (amended): `extractFFmpeg` changes the file system only at the file
`appDataDir/bin/<embeddedBinaryName>` and at missing ancestors-or-self of `appDataDir/bin`,
each of which becomes a directory; when `appDataDir` is the root or an existing directory
the only locations changed are `appDataDir/bin` and that file; a nil error comes with
exactly the path `appDataDir/bin/<embeddedBinaryName>`, and every failure with the empty
path and a non-nil error. -/
theorem extractFFmpeg_frame (b : Build) (env : Env) (os : OS) (appDataDir : Path) :
    (∀ q : Path, (extractFFmpeg b env os appDataDir).2.fs q ≠ os.fs q →
      q = appDataDir ++ ["bin"] ++ [b.embeddedBinaryName] ∨
      (q ≠ [] ∧ q <+: appDataDir ++ ["bin"] ∧ os.fs q = none ∧
        (extractFFmpeg b env os appDataDir).2.fs q = some Node.dir)) ∧
    ((appDataDir = [] ∨ os.fs appDataDir = some Node.dir) →
      ∀ q : Path, (extractFFmpeg b env os appDataDir).2.fs q ≠ os.fs q →
        q = appDataDir ++ ["bin"] ++ [b.embeddedBinaryName] ∨ q = appDataDir ++ ["bin"]) ∧
    ((extractFFmpeg b env os appDataDir).1.2 = none →
      (extractFFmpeg b env os appDataDir).1.1 =
        appDataDir ++ ["bin"] ++ [b.embeddedBinaryName]) ∧
    ((extractFFmpeg b env os appDataDir).1.2 ≠ none →
      (extractFFmpeg b env os appDataDir).1.1 = []) := by
  refine ⟨?_, ?_, ?_, ?_⟩
  · intro q hq
    by_cases hd : q = appDataDir ++ ["bin"] ++ [b.embeddedBinaryName]
    · exact Or.inl hd
    · right
      rcases extractFFmpeg_fs_away b env os appDataDir q hd with h | h
      · exact absurd h hq
      · rcases osMkdirAll_frame env os.fs (appDataDir ++ ["bin"]) q with h2 | ⟨h3, h4, h5, h6⟩
        · exact absurd (h.trans h2) hq
        · exact ⟨h5, h6, h3, h.trans h4⟩
  · intro hpar q hq
    by_cases hd : q = appDataDir ++ ["bin"] ++ [b.embeddedBinaryName]
    · exact Or.inl hd
    · right
      rcases extractFFmpeg_fs_away b env os appDataDir q hd with h | h
      · exact absurd h hq
      · exact osMkdirAll_parent_isDir env os.fs appDataDir "bin" q hpar (by rwa [h] at hq)
  · intro h
    rcases extractFFmpeg_result b env os appDataDir with h1 | ⟨msg, h1⟩
    · rw [h1]
    · rw [h1] at h; cases h
  · intro h
    rcases extractFFmpeg_result b env os appDataDir with h1 | ⟨msg, h1⟩
    · rw [h1] at h; exact absurd rfl h
    · rw [h1]

/-- Witness of C6 (amended): with `app` an existing directory and an empty `app/bin`,
extraction returns `app/bin/ffmpeg` and a location that changed is that file or `app/bin`. -/
theorem extractFFmpeg_frame_witness :
    (fun q : Path => if q = ["app"] then some Node.dir else none) ["app"] = some Node.dir ∧
    (extractFFmpeg (linuxAmd64 embedThreeBytes) envAllowAll
        ⟨fun q => if q = ["app"] then some Node.dir else none, []⟩ ["app"]).1.2 = none ∧
    (extractFFmpeg (linuxAmd64 embedThreeBytes) envAllowAll
        ⟨fun q => if q = ["app"] then some Node.dir else none, []⟩ ["app"]).1.1 =
      ["app"] ++ ["bin"] ++ ["ffmpeg"] ∧
    (∀ q : Path,
      (extractFFmpeg (linuxAmd64 embedThreeBytes) envAllowAll
        ⟨fun q => if q = ["app"] then some Node.dir else none, []⟩ ["app"]).2.fs q ≠
        (fun q : Path => if q = ["app"] then some Node.dir else none) q →
      q = ["app"] ++ ["bin"] ++ ["ffmpeg"] ∨ q = ["app"] ++ ["bin"]) :=
  have hdir : (fun q : Path => if q = ["app"] then some Node.dir else none) ["app"] =
      some Node.dir := by decide
  have hok : (extractFFmpeg (linuxAmd64 embedThreeBytes) envAllowAll
      ⟨fun q => if q = ["app"] then some Node.dir else none, []⟩ ["app"]).1.2 = none := by
    decide
  ⟨hdir, hok,
    (extractFFmpeg_frame (linuxAmd64 embedThreeBytes) envAllowAll
      ⟨fun q => if q = ["app"] then some Node.dir else none, []⟩ ["app"]).2.2.1 hok,
    (extractFFmpeg_frame (linuxAmd64 embedThreeBytes) envAllowAll
      ⟨fun q => if q = ["app"] then some Node.dir else none, []⟩ ["app"]).2.1 (Or.inr hdir)⟩

/-- C7: the code at any directory: in a build without the embed_ffmpeg tag
`GetEmbeddedFFmpegPath` returns the empty path together with a nil error. -/
theorem Stub_GetEmbeddedFFmpegPath_nil (appDataDir : String) :
    Stub.GetEmbeddedFFmpegPath appDataDir = ("", none) ∧
    (Stub.GetEmbeddedFFmpegPath "/home/u/.local/share/FileConverter").2 = none :=
  ⟨rfl, rfl⟩

/-- C8: `HasEmbeddedFFmpeg` is true exactly when the embedded binary opens, stats and is
strictly larger than 1024*1024 bytes; a payload of exactly 1024*1024 bytes gives false.
The stub build returns false and an empty platform list. -/
theorem HasEmbeddedFFmpeg_strict (b : Build) :
    (HasEmbeddedFFmpeg b = true ↔
      ∃ f, b.embeddedBinary b.embeddedBinaryPath = some f ∧ f.statOk = true ∧
        f.data.length > 1024 * 1024) ∧
    (∀ n name, (embedOfSize n name).map (fun f => (f.data.length, f.statOk)) = some (n, true)) ∧
    HasEmbeddedFFmpeg (linuxAmd64 (embedOfSize (1024 * 1024))) = false ∧
    Stub.HasEmbeddedFFmpeg = false ∧
    Stub.GetSupportedPlatforms = [] := by
  refine ⟨?_, (fun n name => by simp [embedOfSize]), ?_, rfl, rfl⟩
  · unfold HasEmbeddedFFmpeg
    cases he : b.embeddedBinary b.embeddedBinaryPath with
    | none => simp
    | some f =>
      cases hf : f.statOk with
      | false => simp [hf]
      | true => simp [hf]
  · rw [HasEmbeddedFFmpeg_ofSize]
    decide

/-- C9: the code at any receiver: in App Store builds `isFFmpegAvailable` returns true. -/
theorem isFFmpegAvailable_true {App : Type} (a : App) :
    isFFmpegAvailable a = true ∧ isFFmpegAvailable () = true :=
  ⟨rfl, rfl⟩

/-- C10: `getConverterBackend` is `"avfoundation"` and `getConverterVersion` has a nil
error, but its string is the fixed text `AVFoundation (macOS native)` on every host: hosts
of macOS 14.0 and macOS 15.1 get the same answer. -/
theorem getConverterVersion_constant {App : Type} (a : App) (h1 h2 : Host) :
    getConverterBackend a = "avfoundation" ∧
    (getConverterVersion h1 a).2 = none ∧
    getConverterVersion h1 a = getConverterVersion h2 a ∧
    (getConverterVersion ⟨"14.0"⟩ a).1 = "AVFoundation (macOS native)" ∧
    (getConverterVersion ⟨"15.1"⟩ a).1 = "AVFoundation (macOS native)" :=
  ⟨rfl, rfl, rfl, rfl, rfl⟩

/-! ## Output formats -/

/-- Each image output format, dot-prefixed, is an image input extension. -/
theorem imageOutputs_classify (f : String) (hf : f ∈ ImageOutputFormats) :
    GetFileType ("." ++ f) = FileTypeImage := by
  simp only [ImageOutputFormats, List.mem_cons, List.mem_singleton, List.not_mem_nil,
    or_false] at hf
  rcases hf with h | h | h | h | h | h | h <;> (subst h; decide)

/-- Each video output format, dot-prefixed, is a video input extension, except `gif`,
which is an image input extension. -/
theorem videoOutputs_classify (f : String) (hf : f ∈ VideoOutputFormats) :
    (f ≠ "gif" ∧ GetFileType ("." ++ f) = FileTypeVideo) ∨
      (f = "gif" ∧ GetFileType ("." ++ f) = FileTypeImage) := by
  simp only [VideoOutputFormats, List.mem_cons, List.mem_singleton, List.not_mem_nil,
    or_false] at hf
  rcases hf with h | h | h | h | h | h <;> (subst h; decide)

theorem GetOutputFormats_video : GetOutputFormats FileTypeVideo = VideoOutputFormats := by
  decide

theorem GetOutputFormats_image : GetOutputFormats FileTypeImage = ImageOutputFormats := by
  decide

theorem GetOutputFormats_other (t : FileType) (hv : t ≠ FileTypeVideo)
    (hi : t ≠ FileTypeImage) : GetOutputFormats t = [] := by
  simp only [GetOutputFormats, if_neg hv, if_neg hi]

/-- C11: `GetOutputFormats` is empty for every file type other than video and image,
unknown included; every format it returns, dot-prefixed, is a recognised input extension;
every image output format classifies as image; of the six video output formats `gif`
classifies as image, not video, and the other five classify as video. -/
theorem GetOutputFormats_recognised (t : FileType) :
    (t ≠ FileTypeVideo → t ≠ FileTypeImage → GetOutputFormats t = []) ∧
    GetOutputFormats FileTypeUnknown = [] ∧
    (∀ f ∈ GetOutputFormats t, GetFileType ("." ++ f) ≠ FileTypeUnknown) ∧
    (∀ f ∈ GetOutputFormats FileTypeImage, GetFileType ("." ++ f) = FileTypeImage) ∧
    GetOutputFormats FileTypeVideo = ["mp4", "webm", "avi", "mkv", "mov", "gif"] ∧
    GetFileType ("." ++ "gif") = FileTypeImage ∧
    GetFileType ("." ++ "gif") ≠ FileTypeVideo ∧
    (∀ f ∈ GetOutputFormats FileTypeVideo, f ≠ "gif" →
      GetFileType ("." ++ f) = FileTypeVideo) := by
  have hvu : FileTypeVideo ≠ FileTypeUnknown := by decide
  have hiu : FileTypeImage ≠ FileTypeUnknown := by decide
  refine ⟨GetOutputFormats_other t, by decide, ?_, ?_, by decide, by decide, by decide, ?_⟩
  · intro f hf
    by_cases hv : t = FileTypeVideo
    · subst hv
      rw [GetOutputFormats_video] at hf
      rcases videoOutputs_classify f hf with ⟨_, h⟩ | ⟨_, h⟩
      · rw [h]; exact hvu
      · rw [h]; exact hiu
    · by_cases hi : t = FileTypeImage
      · subst hi
        rw [GetOutputFormats_image] at hf
        rw [imageOutputs_classify f hf]
        exact hiu
      · rw [GetOutputFormats_other t hv hi] at hf
        cases hf
  · intro f hf
    rw [GetOutputFormats_image] at hf
    exact imageOutputs_classify f hf
  · intro f hf hne
    rw [GetOutputFormats_video] at hf
    rcases videoOutputs_classify f hf with ⟨_, h⟩ | ⟨hg, _⟩
    · exact h
    · exact absurd hg hne

/-- Witness of C11: the file type `audio` is neither video nor image and has no output
formats, and the video output format `webm` classifies as video. -/
theorem GetOutputFormats_recognised_witness :
    "audio" ≠ FileTypeVideo ∧ "audio" ≠ FileTypeImage ∧ GetOutputFormats "audio" = [] ∧
    "webm" ∈ GetOutputFormats FileTypeVideo ∧ "webm" ≠ "gif" ∧
    GetFileType ("." ++ "webm") = FileTypeVideo :=
  have hv : "audio" ≠ FileTypeVideo := by decide
  have hi : "audio" ≠ FileTypeImage := by decide
  have hm : "webm" ∈ GetOutputFormats FileTypeVideo := by decide
  have hg : "webm" ≠ "gif" := by decide
  ⟨hv, hi, (GetOutputFormats_recognised "audio").1 hv hi, hm, hg,
    (GetOutputFormats_recognised "audio").2.2.2.2.2.2.2 "webm" hm hg⟩

end Vidconv
